import Mathlib

/-!
Verification of the serosolver boosting kernel
(src/src/boosting_functions.cpp).

The C++ kernel mutates caller-owned flat buffers in place.  We embed it
shallowly: `NumericVector` becomes `List ℚ`, `IntegerVector` becomes
`List ℤ` (histories) or `List ℕ` (index vectors), the named `theta`
lookup becomes fields of an argument structure, and each loop becomes a
`List.foldl` over its index range.  The C macro `MAX(a,b)` is `max`.
Out-of-range reads use `List.getD _ _ 0` (the kernel trusts the caller
to supply valid indices; theorems carry explicit length hypotheses where
a write must land).
-/

namespace Serosolver

/-- Argument bundle shared by the boosting models.  The six rationals are
the entries of `theta` read by the kernel (`theta["mu"]` etc.); the lists
and sizes mirror the C++ parameter names. -/
structure Args where
  mu : ℚ
  mu_short : ℚ
  tau : ℚ
  gradient : ℚ
  boost_limit : ℚ
  wane : ℚ
  infection_times : List ℚ
  cumu_infection_history : List ℤ
  masked_infection_history : List ℤ
  infection_map_indices : List ℕ
  measurement_map_indices : List ℕ
  antigenic_map_long : List ℚ
  antigenic_map_short : List ℚ
  waning : List ℚ
  seniority : List ℚ
  number_strains : ℕ
  n_samples : ℕ
  max_infections : ℕ

/-- The `additional_arguments` list of the strain-dependent model:
`mus` (per-group boost sizes) and `boosting_vec_indices` (strain to
group map). -/
structure AddArgs where
  mus : List ℚ
  boosting_vec_indices : List ℕ

/-- One `predicted_titres[j] += c j` update, the body of every inner
sample loop of the kernel. -/
def addAt (c : ℕ → ℚ) (q : List ℚ) (j : ℕ) : List ℚ :=
  q.set j (q.getD j 0 + c j)

/-! ## BaseBoostModel: multiple_infection_base_boosting -/

/-- Amount added to `predicted_titres[k]` by active slot `i` in
`multiple_infection_base_boosting` (lines 66-72 of the source). -/
def cBase (a : Args) (i k : ℕ) : ℚ :=
  let index := a.measurement_map_indices.getD k 0 * a.number_strains +
    a.infection_map_indices.getD i 0
  a.seniority.getD i 0 *
    (a.mu * a.antigenic_map_long.getD index 0 +
     a.mu_short * a.antigenic_map_short.getD index 0 * a.waning.getD i 0)

/-- One iteration of the outer infection loop of
`multiple_infection_base_boosting`. -/
def baseSlot (a : Args) (pt : List ℚ) (i : ℕ) : List ℚ :=
  if 0 < a.masked_infection_history.getD i 0 then
    (List.range a.n_samples).foldl (addAt (cBase a i)) pt
  else pt

/-- Embedding of `multiple_infection_base_boosting` (source lines 42-75). -/
def multiple_infection_base_boosting (a : Args) (predicted_titres : List ℚ) :
    List ℚ :=
  (List.range a.max_infections).foldl (baseSlot a) predicted_titres

/-! ## StrainDependentBoostModel: multiple_infection_strain_dependent -/

/-- Amount added to `predicted_titres[k]` by active slot `i` in
`multiple_infection_strain_dependent`, for a given group boost `mu`
(source lines 31-36). -/
def cStrainMu (a : Args) (mu : ℚ) (i k : ℕ) : ℚ :=
  max 0 (1 - a.tau * ((a.cumu_infection_history.getD i 0 : ℚ) - 1)) *
    (mu * a.antigenic_map_long.getD
        (a.measurement_map_indices.getD k 0 * a.number_strains +
         a.infection_map_indices.getD i 0) 0 +
     a.mu_short * a.antigenic_map_short.getD
        (a.measurement_map_indices.getD k 0 * a.number_strains +
         a.infection_map_indices.getD i 0) 0 * a.waning.getD i 0)

/-- One iteration of the outer infection loop of
`multiple_infection_strain_dependent`.  Note the group lookup
`mus[boosting_vec_indices[inf_map_index]]` happens before the
active-slot test, as in source lines 26-30. -/
def strainSlot (a : Args) (aa : AddArgs) (pt : List ℚ) (i : ℕ) : List ℚ :=
  let mu := aa.mus.getD
    (aa.boosting_vec_indices.getD (a.infection_map_indices.getD i 0) 0) 0
  if 0 < a.masked_infection_history.getD i 0 then
    (List.range a.measurement_map_indices.length).foldl
      (addAt (cStrainMu a mu i)) pt
  else pt

/-- Embedding of `multiple_infection_strain_dependent` (source lines
6-39); `n_samples` and `max_infections` are the lengths of
`measurement_map_indices` and `cumu_infection_history`, as in lines 17-18. -/
def multiple_infection_strain_dependent (a : Args) (aa : AddArgs)
    (predicted_titres : List ℚ) : List ℚ :=
  (List.range a.cumu_infection_history.length).foldl (strainSlot a aa)
    predicted_titres

/-- Variant of `multiple_infection_strain_dependent` with guarded (checked)
indexing for the group-boost lookup: `boosting_vec_indices[inf_map_index]`
and `mus[...]` return `none` when out of range.  The lookup is performed
in source order, before the active-slot test (source line 28 precedes
line 30). -/
def checkedSlots (a : Args) (aa : AddArgs) :
    List ℕ → List ℚ → Option (List ℚ)
  | [], pt => some pt
  | i :: rest, pt =>
    match aa.boosting_vec_indices[a.infection_map_indices.getD i 0]? with
    | none => none
    | some g =>
      match aa.mus[g]? with
      | none => none
      | some mu =>
        checkedSlots a aa rest
          (if 0 < a.masked_infection_history.getD i 0 then
            (List.range a.measurement_map_indices.length).foldl
              (addAt (cStrainMu a mu i)) pt
          else pt)

/-- Checked-indexing embedding of `multiple_infection_strain_dependent`. -/
def multiple_infection_strain_dependent_checked (a : Args) (aa : AddArgs)
    (predicted_titres : List ℚ) : Option (List ℚ) :=
  checkedSlots a aa (List.range a.cumu_infection_history.length)
    predicted_titres

/-! ## TitreDependentBoostModel: multiple_infection_titre_dependent_boost -/

/-- Mutable state of `multiple_infection_titre_dependent_boost`: the two
caller buffers plus the local running total `monitored_titre`
(initialised once, at function entry, source line 92). -/
structure TState where
  predicted_titres : List ℚ
  monitored_titres : List ℚ
  monitored_titre : ℚ

/-- Amount added to the running total `monitored_titre` by inner slot
`ii` of the Phase-A scan of outer slot `i` (source lines 117-138):
zero for an inactive `ii`, otherwise seniority times cross-reactivity,
scaled by the titre-dependent factor read from `monitored_titres[ii]`,
floored at zero, with the short-term part decayed by time difference. -/
def termA (a : Args) (i : ℕ) (mt : List ℚ) (ii : ℕ) : ℚ :=
  if 0 < a.masked_infection_history.getD ii 0 then
    let sen := max 0 (1 - a.tau * ((a.cumu_infection_history.getD ii 0 : ℚ) - 1))
    let idx := a.infection_map_indices.getD i 0 * a.number_strains +
      a.infection_map_indices.getD ii 0
    let long_boost := sen * (a.mu * a.antigenic_map_long.getD idx 0)
    let short_boost := sen * (a.mu_short * a.antigenic_map_short.getD idx 0)
    let scale := if a.boost_limit ≤ mt.getD ii 0 then
        1 - a.gradient * a.boost_limit
      else 1 - a.gradient * mt.getD ii 0
    let long_boost := max 0 (long_boost * scale)
    let short_boost := max 0 (short_boost * scale)
    long_boost + short_boost *
      max 0 (1 - a.wane *
        (a.infection_times.getD i 0 - a.infection_times.getD ii 0))
  else 0

/-- One iteration of the Phase-A inner scan (source lines 116-140): the
running total grows by `termA` and `monitored_titres[i]` is written on
every iteration, active or not (line 139 sits outside the line-117
guard). -/
def titreInnerA (a : Args) (i : ℕ) (s : List ℚ × ℚ) (ii : ℕ) : List ℚ × ℚ :=
  let acc := s.2 + termA a i s.1 ii
  (s.1.set i acc, acc)

/-- The full Phase-A scan for outer slot `i`: inner index `ii` runs from
`i-1` down to `0`. -/
def slotA (a : Args) (i : ℕ) (p : List ℚ × ℚ) : List ℚ × ℚ :=
  ((List.range i).reverse).foldl (titreInnerA a i) p

/-- Amount added to `predicted_titres[k]` by Phase B of active slot `i`
(source lines 141-164), reading the saturation level from
`monitored_titres[i]` of the given buffer `mt`. -/
def cPhaseB (a : Args) (i : ℕ) (mt : List ℚ) (k : ℕ) : ℚ :=
  let sen := max 0 (1 - a.tau * ((a.cumu_infection_history.getD i 0 : ℚ) - 1))
  let idx := a.measurement_map_indices.getD k 0 * a.number_strains +
    a.infection_map_indices.getD i 0
  let long_boost := sen * (a.mu * a.antigenic_map_long.getD idx 0)
  let short_boost := sen * (a.mu_short * a.antigenic_map_short.getD idx 0)
  let scale := if a.boost_limit ≤ mt.getD i 0 then
      1 - a.gradient * a.boost_limit
    else 1 - a.gradient * mt.getD i 0
  let long_boost := max 0 (long_boost * scale)
  let short_boost := max 0 (short_boost * scale)
  long_boost + short_boost * a.waning.getD i 0

/-- One iteration of the outer slot loop of
`multiple_infection_titre_dependent_boost` (source lines 110-166):
inactive slots are skipped entirely; an active slot runs Phase A then
Phase B. -/
def titreSlot (a : Args) (s : TState) (i : ℕ) : TState :=
  if 0 < a.masked_infection_history.getD i 0 then
    let r := slotA a i (s.monitored_titres, s.monitored_titre)
    let pt := (List.range a.measurement_map_indices.length).foldl
      (addAt (cPhaseB a i r.1)) s.predicted_titres
    ⟨pt, r.1, r.2⟩
  else s

/-- State after the first `n` outer slots of
`multiple_infection_titre_dependent_boost`, starting from the caller
buffers and a zero running total. -/
def runUpTo (a : Args) (pt mt : List ℚ) (n : ℕ) : TState :=
  (List.range n).foldl (titreSlot a) ⟨pt, mt, 0⟩

/-- Embedding of `multiple_infection_titre_dependent_boost` (source
lines 78-167); `max_infections` is `infection_times.length` (line 107),
`n_samples` is `measurement_map_indices.length` (line 108).  Returns the
final `(predicted_titres, monitored_titres)` pair. -/
def multiple_infection_titre_dependent_boost (a : Args)
    (predicted_titres monitored_titres : List ℚ) : List ℚ × List ℚ :=
  let s := runUpTo a predicted_titres monitored_titres
    a.infection_times.length
  (s.predicted_titres, s.monitored_titres)

/-! ## BoostDispatcher: add_multiple_infections_boost -/

/-- Embedding of `add_multiple_infections_boost` (source lines 171-231):
routes to the titre-dependent model when the flag is set, else to the
strain-dependent model when `additional_arguments` is non-null, else to
the base model.  `DOB` is accepted and passed nowhere.  Returns the
final `(predicted_titres, monitored_titres)` pair. -/
def add_multiple_infections_boost (a : Args)
    (titre_dependent_boosting : Bool) (DOB : ℤ)
    (additional_arguments : Option AddArgs)
    (predicted_titres monitored_titres : List ℚ) : List ℚ × List ℚ :=
  if titre_dependent_boosting then
    multiple_infection_titre_dependent_boost a predicted_titres
      monitored_titres
  else
    match additional_arguments with
    | some aa =>
      (multiple_infection_strain_dependent a aa predicted_titres,
       monitored_titres)
    | none =>
      (multiple_infection_base_boosting a predicted_titres,
       monitored_titres)

/-! ## FastIndividualBaseSimulator: titre_data_fast_individual_base -/

/-- Argument bundle of `titre_data_fast_individual_base`, mirroring the
C++ parameter names (source lines 234-250); the four scalars are
pre-unpacked `theta` values. -/
structure FastArgs where
  mu : ℚ
  mu_short : ℚ
  wane : ℚ
  tau : ℚ
  infection_times : List ℚ
  infection_strain_indices_tmp : List ℕ
  measurement_strain_indices : List ℕ
  sample_times : List ℚ
  index_in_samples : ℕ
  end_index_in_samples : ℕ
  start_index_in_data1 : ℕ
  nrows_per_blood_sample : List ℕ
  number_strains : ℕ
  antigenic_map_short : List ℚ
  antigenic_map_long : List ℚ

/-- Amount added to `predicted_titres[r]` (absolute row `r` of the
current draw) by a qualifying infection, given its seniority and waning
factors (source lines 282-286). -/
def cFast (f : FastArgs) (seniority wane_amount : ℚ) (inf_map_index r : ℕ) :
    ℚ :=
  let index := f.measurement_strain_indices.getD r 0 * f.number_strains +
    inf_map_index
  seniority * (f.mu * f.antigenic_map_long.getD index 0 +
    f.mu_short * f.antigenic_map_short.getD index 0 * wane_amount)

/-- Body of the infection scan for one qualifying infection `x` (source
lines 277-287): add its contribution to every row of the draw and
advance the seniority counter.  State is `(predicted_titres, n_inf)`. -/
def fastInfBody (f : FastArgs) (sampling_time : ℚ)
    (n_titres tmp_titre_index : ℕ) (s : List ℚ × ℚ) (x : ℕ) :
    List ℚ × ℚ :=
  let time := sampling_time - f.infection_times.getD x 0
  let wane_amount := max 0 (1 - f.wane * time)
  let seniority := max 0 (1 - f.tau * (s.2 - 1))
  let inf_map_index := f.infection_strain_indices_tmp.getD x 0
  ((List.range' tmp_titre_index n_titres).foldl
      (addAt (cFast f seniority wane_amount inf_map_index)) s.1,
   s.2 + 1)

/-- One iteration of the infection scan (source lines 275-289): the
temporal gate `sampling_time >= infection_times[x]` guards the body. -/
def fastInfStep (f : FastArgs) (sampling_time : ℚ)
    (n_titres tmp_titre_index : ℕ) (s : List ℚ × ℚ) (x : ℕ) :
    List ℚ × ℚ :=
  if f.infection_times.getD x 0 ≤ sampling_time then
    fastInfBody f sampling_time n_titres tmp_titre_index s x
  else s

/-- One blood draw `j` (source lines 266-291): scan every infection with
the temporal gate, seniority counter starting at 1, then advance the row
offset by this draw's number of titres.  State is
`(predicted_titres, start_index_in_data)`. -/
def fastDraw (f : FastArgs) (s : List ℚ × ℕ) (j : ℕ) : List ℚ × ℕ :=
  let sampling_time := f.sample_times.getD j 0
  let n_titres := f.nrows_per_blood_sample.getD j 0
  ((((List.range f.infection_times.length).foldl
      (fastInfStep f sampling_time n_titres s.2) (s.1, 1))).1,
   s.2 + n_titres)

/-- Embedding of `titre_data_fast_individual_base` (source lines
234-292): draws `j` run from `index_in_samples` to
`end_index_in_samples` inclusive. -/
def titre_data_fast_individual_base (f : FastArgs)
    (predicted_titres : List ℚ) : List ℚ :=
  ((List.range' f.index_in_samples
      (f.end_index_in_samples + 1 - f.index_in_samples)).foldl
    (fastDraw f) (predicted_titres, f.start_index_in_data1)).1

/-- Spec-described variant of the fast simulator, following the claim
wording: per draw, only infections passing the temporal gate are
scanned at all (the infection list is pre-filtered), and the seniority
counter advances exactly once per passing infection. -/
def fastDrawFiltered (f : FastArgs) (s : List ℚ × ℕ) (j : ℕ) :
    List ℚ × ℕ :=
  let sampling_time := f.sample_times.getD j 0
  let n_titres := f.nrows_per_blood_sample.getD j 0
  (((((List.range f.infection_times.length).filter
        (fun x => f.infection_times.getD x 0 ≤ sampling_time)).foldl
      (fastInfBody f sampling_time n_titres s.2) (s.1, 1))).1,
   s.2 + n_titres)

/-- Spec-described fast simulator built from `fastDrawFiltered`. -/
def titre_data_fast_individual_base_filtered (f : FastArgs)
    (predicted_titres : List ℚ) : List ℚ :=
  ((List.range' f.index_in_samples
      (f.end_index_in_samples + 1 - f.index_in_samples)).foldl
    (fastDrawFiltered f) (predicted_titres, f.start_index_in_data1)).1

/-- One Phase-A boost term as the claim words it:
`long_boost + short_boost * max(0, 1 - wane*(t_i - t_ii))` with
`long_boost = max(0, seniority * mu * long_term[...] * f(ii))` and the
analogous short term, `f(ii)` the titre-dependent factor read from the
given `monitored_titres` buffer `mt`; zero for an inactive `ii`. -/
def specTermA (a : Args) (mt : List ℚ) (i ii : ℕ) : ℚ :=
  if 0 < a.masked_infection_history.getD ii 0 then
    max 0 (max 0 (1 - a.tau * ((a.cumu_infection_history.getD ii 0 : ℚ) - 1)) *
        a.mu * a.antigenic_map_long.getD
          (a.infection_map_indices.getD i 0 * a.number_strains +
           a.infection_map_indices.getD ii 0) 0 *
        (if a.boost_limit ≤ mt.getD ii 0 then 1 - a.gradient * a.boost_limit
         else 1 - a.gradient * mt.getD ii 0)) +
    max 0 (max 0 (1 - a.tau * ((a.cumu_infection_history.getD ii 0 : ℚ) - 1)) *
        a.mu_short * a.antigenic_map_short.getD
          (a.infection_map_indices.getD i 0 * a.number_strains +
           a.infection_map_indices.getD ii 0) 0 *
        (if a.boost_limit ≤ mt.getD ii 0 then 1 - a.gradient * a.boost_limit
         else 1 - a.gradient * mt.getD ii 0)) *
      max 0 (1 - a.wane *
        (a.infection_times.getD i 0 - a.infection_times.getD ii 0))
  else 0

/-- Phase-A total as the claim words it: the sum, starting from zero and
taken over active prior slots `ii < i`, of the boost terms, with the
saturation factor read from the given `monitored_titres` buffer `mt`. -/
def phaseASpecTotal (a : Args) (mt : List ℚ) (i : ℕ) : ℚ :=
  ((List.range i).map (specTermA a mt i)).sum

/-! ## Concrete inputs used by counterexamples and witnesses -/

/-- Three active infection slots at one strain, unit long-term map, all
decay and saturation parameters zero: each Phase-A pair contributes
exactly 1. -/
def exTriple : Args where
  mu := 1
  mu_short := 0
  tau := 0
  gradient := 0
  boost_limit := 0
  wane := 0
  infection_times := [0, 0, 0]
  cumu_infection_history := [1, 2, 3]
  masked_infection_history := [1, 1, 1]
  infection_map_indices := [0, 0, 0]
  measurement_map_indices := []
  antigenic_map_long := [1]
  antigenic_map_short := [0]
  waning := []
  seniority := []
  number_strains := 1
  n_samples := 0
  max_infections := 3

/-- A single active infection slot and no samples: the titre-dependent
model runs its (empty) Phase-A scan for slot 0 and writes nothing. -/
def exSingle : Args where
  mu := 0
  mu_short := 0
  tau := 0
  gradient := 0
  boost_limit := 0
  wane := 0
  infection_times := [0]
  cumu_infection_history := [1]
  masked_infection_history := [1]
  infection_map_indices := [0]
  measurement_map_indices := []
  antigenic_map_long := []
  antigenic_map_short := []
  waning := []
  seniority := []
  number_strains := 0
  n_samples := 0
  max_infections := 1

/-- The concrete scenario of the spec: two strains, one active infection
at strain 0, one sample at strain 0, identity long-term map, mu = 2. -/
def exSpecScenario : Args where
  mu := 2
  mu_short := 0
  tau := 0
  gradient := 0
  boost_limit := 0
  wane := 0
  infection_times := [0]
  cumu_infection_history := [1]
  masked_infection_history := [1]
  infection_map_indices := [0]
  measurement_map_indices := [0]
  antigenic_map_long := [1, 0, 0, 1]
  antigenic_map_short := [0, 0, 0, 0]
  waning := [1]
  seniority := [1]
  number_strains := 2
  n_samples := 1
  max_infections := 1

/-- Both slots inactive (masked 0 and -1). -/
def exInactive : Args where
  mu := 3
  mu_short := 2
  tau := 1
  gradient := 1
  boost_limit := 1
  wane := 1
  infection_times := [0, 1]
  cumu_infection_history := [1, 2]
  masked_infection_history := [0, -1]
  infection_map_indices := [0, 0]
  measurement_map_indices := [0]
  antigenic_map_long := [1]
  antigenic_map_short := [1]
  waning := [1, 1]
  seniority := [1, 1]
  number_strains := 1
  n_samples := 1
  max_infections := 2

/-- One inactive slot whose group lookup is out of range: the
strain-to-group map is empty. -/
def exBadGroup : Args where
  mu := 0
  mu_short := 0
  tau := 0
  gradient := 0
  boost_limit := 0
  wane := 0
  infection_times := [0]
  cumu_infection_history := [1]
  masked_infection_history := [0]
  infection_map_indices := [0]
  measurement_map_indices := []
  antigenic_map_long := []
  antigenic_map_short := []
  waning := [1]
  seniority := [1]
  number_strains := 1
  n_samples := 0
  max_infections := 1

/-- Empty auxiliary group mapping: every lookup into it is out of range. -/
def exEmptyAdd : AddArgs where
  mus := []
  boosting_vec_indices := []

/-- A small valid auxiliary group mapping. -/
def exOneAdd : AddArgs where
  mus := [1]
  boosting_vec_indices := [0]

/-! ## Generic lemmas about list updates and folds -/

theorem getD_set_ne (l : List ℚ) {i j : ℕ} (v : ℚ) (h : i ≠ j) :
    (l.set i v).getD j 0 = l.getD j 0 := by
  simp [List.getD_eq_getElem?_getD, List.getElem?_set_ne h]

theorem getD_set_self (l : List ℚ) {i : ℕ} (v : ℚ) (h : i < l.length) :
    (l.set i v).getD i 0 = v := by
  simp [List.getD_eq_getElem?_getD, List.getElem?_set_self h]

theorem set_getD_self (l : List ℚ) (i : ℕ) : l.set i (l.getD i 0) = l := by
  induction l generalizing i with
  | nil => simp
  | cons a t ih =>
    cases i with
    | zero => simp
    | succ n => simpa using ih n

theorem foldl_addAt_length (c : ℕ → ℚ) (L : List ℕ) (q : List ℚ) :
    (L.foldl (addAt c) q).length = q.length := by
  induction L generalizing q with
  | nil => rfl
  | cons x L ih => simpa [addAt] using ih (addAt c q x)

theorem foldl_addAt_range_getD (c : ℕ → ℚ) (n : ℕ) (q : List ℚ) (k : ℕ) :
    ((List.range n).foldl (addAt c) q).getD k 0 =
      q.getD k 0 + if k < n ∧ k < q.length then c k else 0 := by
  induction n with
  | zero => simp
  | succ n ih =>
    rw [List.range_succ, List.foldl_append]
    set Q := (List.range n).foldl (addAt c) q with hQ
    have hQlen : Q.length = q.length := foldl_addAt_length c _ q
    simp only [List.foldl_cons, List.foldl_nil]
    rcases eq_or_ne k n with hk | hk
    · subst hk
      by_cases hkl : k < q.length
      · rw [addAt, getD_set_self Q _ (by omega), ih]
        have h1 : ¬ (k < k ∧ k < q.length) := by omega
        have h2 : k < k + 1 ∧ k < q.length := by omega
        simp [h1, h2, add_assoc]
      · rw [addAt, List.set_eq_of_length_le (by omega), ih]
        have h1 : ¬ (k < k ∧ k < q.length) := by omega
        simp [h1, hkl]
    · rw [addAt, getD_set_ne Q _ (Ne.symm hk), ih]
      have : (k < n ∧ k < q.length) ↔ (k < n + 1 ∧ k < q.length) := by omega
      simp [this]

theorem foldl_addAt_delta (c : ℕ → ℚ) (r : ℕ → ℚ) (L : List ℕ) :
    ∀ (q1 q2 : List ℚ), q2.length = q1.length →
    (∀ k, q2.getD k 0 = q1.getD k 0 - r k) →
    (L.foldl (addAt c) q2).length = (L.foldl (addAt c) q1).length ∧
    ∀ k, (L.foldl (addAt c) q2).getD k 0 =
      (L.foldl (addAt c) q1).getD k 0 - r k := by
  induction L with
  | nil => exact fun q1 q2 hlen h => ⟨hlen, h⟩
  | cons x L ih =>
    intro q1 q2 hlen h
    simp only [List.foldl_cons]
    refine ih (addAt c q1 x) (addAt c q2 x) (by simp [addAt, hlen]) ?_
    intro k
    rcases eq_or_ne x k with hx | hx
    · subst hx
      by_cases hxl : x < q1.length
      · rw [addAt, addAt, getD_set_self q1 _ hxl,
          getD_set_self q2 _ (by omega), h x]
        ring
      · rw [addAt, addAt, List.set_eq_of_length_le (by omega),
          List.set_eq_of_length_le (by omega)]
        exact h x
    · rw [addAt, addAt, getD_set_ne q1 _ hx, getD_set_ne q2 _ hx]
      exact h k

theorem foldl_fix {α : Type} {β : Type} (L : List β) (g : α → β → α) (s : α)
    (h : ∀ t x, x ∈ L → g t x = t) : L.foldl g s = s := by
  induction L generalizing s with
  | nil => rfl
  | cons x L ih =>
    rw [List.foldl_cons, h s x (by simp)]
    exact ih s fun t y hy => h t y (by simp [hy])

/-! ## Lemmas about the titre-dependent model -/

theorem termA_congr (a : Args) (i : ℕ) {mt mt2 : List ℚ} (ii : ℕ)
    (h : mt.getD ii 0 = mt2.getD ii 0) :
    termA a i mt ii = termA a i mt2 ii := by
  simp only [termA, h]

theorem termA_set_self_ne (a : Args) (i : ℕ) (mt : List ℚ) (v : ℚ)
    {ii : ℕ} (h : ii ≠ i) :
    termA a i (mt.set i v) ii = termA a i mt ii :=
  termA_congr a i ii (getD_set_ne mt v (Ne.symm h))

theorem termA_nonneg (a : Args) (i : ℕ) (mt : List ℚ) (ii : ℕ) :
    0 ≤ termA a i mt ii := by
  rw [termA]
  split
  · refine add_nonneg (le_max_left 0 _) (mul_nonneg (le_max_left 0 _)
      (le_max_left 0 _))
  · exact le_refl 0

theorem foldA_fst_getD_ne (a : Args) (i : ℕ) (L : List ℕ)
    (p : List ℚ × ℚ) {x : ℕ} (h : x ≠ i) :
    ((L.foldl (titreInnerA a i) p).1).getD x 0 = p.1.getD x 0 := by
  induction L generalizing p with
  | nil => rfl
  | cons y L ih =>
    rw [List.foldl_cons, ih]
    exact getD_set_ne p.1 _ (Ne.symm h)

theorem foldA_fst_length (a : Args) (i : ℕ) (L : List ℕ) (p : List ℚ × ℚ) :
    ((L.foldl (titreInnerA a i) p).1).length = p.1.length := by
  induction L generalizing p with
  | nil => rfl
  | cons y L ih => simpa [titreInnerA] using ih (titreInnerA a i p y)

theorem foldA_collapse (a : Args) (i : ℕ) (L : List ℕ) (p : List ℚ × ℚ)
    (hL : L ≠ []) :
    (L.foldl (titreInnerA a i) p).1 =
      p.1.set i (L.foldl (titreInnerA a i) p).2 := by
  induction L generalizing p with
  | nil => exact absurd rfl hL
  | cons y L ih =>
    rcases eq_or_ne L [] with hL2 | hL2
    · subst hL2; rfl
    · rw [List.foldl_cons, ih (titreInnerA a i p y) hL2]
      simp [titreInnerA, List.set_set]

theorem foldA_acc_congr (a : Args) (i : ℕ) (L : List ℕ)
    (hmem : ∀ x ∈ L, x ≠ i) :
    ∀ (mt mt2 : List ℚ) (acc : ℚ),
    (∀ x ∈ L, mt.getD x 0 = mt2.getD x 0) →
    (L.foldl (titreInnerA a i) (mt, acc)).2 =
      (L.foldl (titreInnerA a i) (mt2, acc)).2 := by
  induction L with
  | nil => intro mt mt2 acc _; rfl
  | cons y L ih =>
    intro mt mt2 acc hagree
    have hy : termA a i mt y = termA a i mt2 y :=
      termA_congr a i y (hagree y (by simp))
    simp only [List.foldl_cons, titreInnerA, hy]
    refine ih (fun x hx => hmem x (by simp [hx])) _ _ _ ?_
    intro x hx
    rw [getD_set_ne mt _ (Ne.symm (hmem x (by simp [hx]))),
      getD_set_ne mt2 _ (Ne.symm (hmem x (by simp [hx])))]
    exact hagree x (by simp [hx])

theorem foldA_acc_sum (a : Args) (i : ℕ) (L : List ℕ)
    (hmem : ∀ x ∈ L, x ≠ i) :
    ∀ (mt : List ℚ) (acc : ℚ),
    (L.foldl (titreInnerA a i) (mt, acc)).2 =
      acc + (L.map (termA a i mt)).sum := by
  induction L with
  | nil => intro mt acc; simp
  | cons y L ih =>
    intro mt acc
    simp only [List.foldl_cons, titreInnerA, List.map_cons, List.sum_cons]
    rw [ih (fun x hx => hmem x (by simp [hx]))]
    have : L.map (termA a i (mt.set i (acc + termA a i mt y))) =
        L.map (termA a i mt) := by
      refine List.map_congr_left ?_
      intro x hx
      exact termA_set_self_ne a i mt _ (hmem x (by simp [hx]))
    rw [this]; ring

theorem foldA_acc_le (a : Args) (i : ℕ) (L : List ℕ) :
    ∀ (p : List ℚ × ℚ), p.2 ≤ (L.foldl (titreInnerA a i) p).2 := by
  induction L with
  | nil => intro p; exact le_refl _
  | cons y L ih =>
    intro p
    refine le_trans ?_ (ih (titreInnerA a i p y))
    simp only [titreInnerA]
    nlinarith [termA_nonneg a i p.1 y]

theorem cPhaseB_congr (a : Args) (i : ℕ) {mt mt2 : List ℚ}
    (h : mt.getD i 0 = mt2.getD i 0) :
    cPhaseB a i mt = cPhaseB a i mt2 := by
  funext k
  simp only [cPhaseB, h]

theorem runUpTo_zero (a : Args) (pt mt : List ℚ) :
    runUpTo a pt mt 0 = ⟨pt, mt, 0⟩ := rfl

theorem runUpTo_succ (a : Args) (pt mt : List ℚ) (n : ℕ) :
    runUpTo a pt mt (n + 1) = titreSlot a (runUpTo a pt mt n) n := by
  simp [runUpTo, List.range_succ]

theorem titreSlot_mt_getD_ne (a : Args) (s : TState) (j : ℕ) {x : ℕ}
    (h : x ≠ j) :
    ((titreSlot a s j).monitored_titres).getD x 0 =
      s.monitored_titres.getD x 0 := by
  rw [titreSlot]
  split
  · exact foldA_fst_getD_ne a j _ _ h
  · rfl

theorem titreSlot_mt_length (a : Args) (s : TState) (j : ℕ) :
    ((titreSlot a s j).monitored_titres).length =
      s.monitored_titres.length := by
  rw [titreSlot]
  split
  · exact foldA_fst_length a j _ _
  · rfl

theorem titreSlot_pt_length (a : Args) (s : TState) (j : ℕ) :
    ((titreSlot a s j).predicted_titres).length =
      s.predicted_titres.length := by
  rw [titreSlot]
  split
  · exact foldl_addAt_length _ _ _
  · rfl

theorem titreSlot_acc_le (a : Args) (s : TState) (j : ℕ) :
    s.monitored_titre ≤ (titreSlot a s j).monitored_titre := by
  rw [titreSlot]
  split
  · exact foldA_acc_le a j _ _
  · exact le_refl _

theorem runUpTo_mt_length (a : Args) (pt mt : List ℚ) (n : ℕ) :
    (runUpTo a pt mt n).monitored_titres.length = mt.length := by
  induction n with
  | zero => rfl
  | succ n ih => rw [runUpTo_succ, titreSlot_mt_length, ih]

theorem runUpTo_pt_length (a : Args) (pt mt : List ℚ) (n : ℕ) :
    (runUpTo a pt mt n).predicted_titres.length = pt.length := by
  induction n with
  | zero => rfl
  | succ n ih => rw [runUpTo_succ, titreSlot_pt_length, ih]

theorem runUpTo_mt_stable (a : Args) (pt mt : List ℚ) {x m n : ℕ}
    (hmn : m ≤ n) (hx : x < m) :
    (runUpTo a pt mt n).monitored_titres.getD x 0 =
      (runUpTo a pt mt m).monitored_titres.getD x 0 := by
  induction n, hmn using Nat.le_induction with
  | base => rfl
  | succ n hmn ih =>
    rw [runUpTo_succ, titreSlot_mt_getD_ne a _ n (by omega), ih]

theorem runUpTo_acc_mono (a : Args) (pt mt : List ℚ) {m n : ℕ}
    (hmn : m ≤ n) :
    (runUpTo a pt mt m).monitored_titre ≤
      (runUpTo a pt mt n).monitored_titre := by
  induction n, hmn using Nat.le_induction with
  | base => exact le_refl _
  | succ n hmn ih =>
    exact le_trans ih (by rw [runUpTo_succ]; exact titreSlot_acc_le a _ n)

theorem runUpTo_active_mt_getD (a : Args) (pt mt : List ℚ) {i : ℕ}
    (h1 : 1 ≤ i) (hact : 0 < a.masked_infection_history.getD i 0)
    (hlen : i < mt.length) :
    (runUpTo a pt mt (i + 1)).monitored_titres.getD i 0 =
      (runUpTo a pt mt (i + 1)).monitored_titre := by
  rw [runUpTo_succ, titreSlot, if_pos hact]
  have hL : ((List.range i).reverse : List ℕ) ≠ [] := by
    simp only [ne_eq, List.reverse_eq_nil_iff, List.range_eq_nil]
    omega
  dsimp only [slotA]
  rw [foldA_collapse a i _ _ hL]
  exact getD_set_self _ _ (by rw [runUpTo_mt_length]; exact hlen)

/-! ## Closed form for the base model -/

theorem baseSlot_length (a : Args) (q : List ℚ) (i : ℕ) :
    (baseSlot a q i).length = q.length := by
  rw [baseSlot]
  split
  · exact foldl_addAt_length _ _ _
  · rfl

theorem base_fold_length (a : Args) (pt : List ℚ) (n : ℕ) :
    ((List.range n).foldl (baseSlot a) pt).length = pt.length := by
  induction n with
  | zero => rfl
  | succ n ih =>
    rw [List.range_succ, List.foldl_append, List.foldl_cons, List.foldl_nil,
      baseSlot_length, ih]

theorem base_fold_getD (a : Args) (pt : List ℚ) {k : ℕ}
    (hk : k < a.n_samples) (hkl : k < pt.length) (n : ℕ) :
    ((List.range n).foldl (baseSlot a) pt).getD k 0 =
      pt.getD k 0 + ((List.range n).map (fun i =>
        if 0 < a.masked_infection_history.getD i 0 then cBase a i k
        else 0)).sum := by
  induction n with
  | zero => simp
  | succ n ih =>
    rw [List.range_succ, List.foldl_append, List.foldl_cons, List.foldl_nil,
      List.map_append, List.sum_append, List.map_cons, List.map_nil,
      List.sum_cons, List.sum_nil, baseSlot]
    split
    · rw [foldl_addAt_range_getD, ih,
        if_pos ⟨hk, by rw [base_fold_length]; exact hkl⟩]
      ring
    · rw [ih]; ring

/-! ## Claim theorems -/

/-- Claim C2: in the base model, for a sample index `k` within range, the
final `predicted_titres[k]` equals its initial value plus the sum over
active infection slots of
`seniority[i] * (mu * long_term[...] + mu_short * short_term[...] * waning[i])`
with row-major matrix indexing (the formula is `cBase`). -/
theorem base_boosting_adds_sum (a : Args) (pt : List ℚ) {k : ℕ}
    (hk : k < a.n_samples) (hkl : k < pt.length) :
    (multiple_infection_base_boosting a pt).getD k 0 =
      pt.getD k 0 + ((List.range a.max_infections).map (fun i =>
        if 0 < a.masked_infection_history.getD i 0 then cBase a i k
        else 0)).sum :=
  base_fold_getD a pt hk hkl a.max_infections

/-- Witness for C2 at the concrete scenario of the spec: one active
infection, one sample, `mu = 2`, giving `predicted_titres[0] = 2`. -/
theorem base_boosting_adds_sum_witness :
    (multiple_infection_base_boosting exSpecScenario [0]).getD 0 0 =
      ([0] : List ℚ).getD 0 0 +
      ((List.range exSpecScenario.max_infections).map (fun i =>
        if 0 < exSpecScenario.masked_infection_history.getD i 0 then
          cBase exSpecScenario i 0 else 0)).sum :=
  base_boosting_adds_sum exSpecScenario [0] (by decide) (by decide)

/-- Claim C4: the dispatcher routes to the titre-dependent model when the
flag is set (whatever the auxiliary argument is), to the strain-dependent
model when the flag is clear and the auxiliary mapping is present, and to
the base model otherwise; its effect on both buffers is exactly that of
the selected model (the other two leave `monitored_titres` untouched). -/
theorem dispatcher_routing (a : Args) (aa : AddArgs) (dob : ℤ)
    (pt mt : List ℚ) :
    (∀ oaa : Option AddArgs,
      add_multiple_infections_boost a true dob oaa pt mt =
        multiple_infection_titre_dependent_boost a pt mt) ∧
    add_multiple_infections_boost a false dob (some aa) pt mt =
      (multiple_infection_strain_dependent a aa pt, mt) ∧
    add_multiple_infections_boost a false dob none pt mt =
      (multiple_infection_base_boosting a pt, mt) :=
  ⟨fun _ => rfl, rfl, rfl⟩

/-- Claim C7: when every entry of `masked_infection_history` is
non-positive, none of the three boost models changes
`predicted_titres`. -/
theorem all_inactive_noop (a : Args) (aa : AddArgs) (pt mt : List ℚ)
    (h : ∀ x ∈ a.masked_infection_history, x ≤ 0) :
    multiple_infection_base_boosting a pt = pt ∧
    multiple_infection_strain_dependent a aa pt = pt ∧
    (multiple_infection_titre_dependent_boost a pt mt).1 = pt := by
  have hg : ∀ i : ℕ, ¬ 0 < a.masked_infection_history.getD i 0 := by
    intro i
    rw [List.getD_eq_getElem?_getD]
    cases hgi : a.masked_infection_history[i]? with
    | none => simp
    | some y =>
      have hy := h y (List.getElem?_mem hgi)
      simp only [Option.getD_some]
      omega
  refine ⟨?_, ?_, ?_⟩
  · exact foldl_fix _ _ _ (fun t x _ => by
      simp only [baseSlot, if_neg (hg x)])
  · exact foldl_fix _ _ _ (fun t x _ => by
      simp only [strainSlot, if_neg (hg x)])
  · show (runUpTo a pt mt a.infection_times.length).predicted_titres = pt
    have hrun : runUpTo a pt mt a.infection_times.length = ⟨pt, mt, 0⟩ := by
      rw [runUpTo]
      exact foldl_fix _ _ _ (fun t x _ => by
        simp only [titreSlot, if_neg (hg x)])
    rw [hrun]

/-- Witness for C7 at a concrete two-slot input with masks 0 and -1. -/
theorem all_inactive_noop_witness :
    multiple_infection_base_boosting exInactive [4] = [4] ∧
    multiple_infection_strain_dependent exInactive exOneAdd [4] = [4] ∧
    (multiple_infection_titre_dependent_boost exInactive [4] [0, 0]).1 =
      [4] :=
  all_inactive_noop exInactive exOneAdd [4] [0, 0] (by decide)

/-- Claim C8: the dispatcher output is independent of the `DOB`
argument: any two DOB values give identical `predicted_titres` and
`monitored_titres`. -/
theorem dob_noninterference (a : Args) (flag : Bool)
    (oaa : Option AddArgs) (pt mt : List ℚ) (d d2 : ℤ) :
    add_multiple_infections_boost a flag d oaa pt mt =
      add_multiple_infections_boost a flag d2 oaa pt mt := rfl

/-- Claim C9: in the titre-dependent model, for two active slots
`1 ≤ i < i2` (within range of a valid `monitored_titres` buffer), the
final monitored titre at `i2` is at least the one at `i`: the running
total is never reset and every accumulated boost is non-negative. -/
theorem monitored_titres_monotone (a : Args) (pt mt : List ℚ) {i i2 : ℕ}
    (h1 : 1 ≤ i) (hii : i < i2) (hN : i2 < a.infection_times.length)
    (hact : 0 < a.masked_infection_history.getD i 0)
    (hact2 : 0 < a.masked_infection_history.getD i2 0)
    (hlen : a.infection_times.length ≤ mt.length) :
    (multiple_infection_titre_dependent_boost a pt mt).2.getD i 0 ≤
      (multiple_infection_titre_dependent_boost a pt mt).2.getD i2 0 := by
  show (runUpTo a pt mt a.infection_times.length).monitored_titres.getD i 0 ≤
    (runUpTo a pt mt a.infection_times.length).monitored_titres.getD i2 0
  rw [runUpTo_mt_stable a pt mt (show i + 1 ≤ a.infection_times.length by
        omega) (by omega),
    runUpTo_mt_stable a pt mt (show i2 + 1 ≤ a.infection_times.length by
        omega) (by omega),
    runUpTo_active_mt_getD a pt mt h1 hact (by omega),
    runUpTo_active_mt_getD a pt mt (by omega) hact2 (by omega)]
  exact runUpTo_acc_mono a pt mt (by omega)

/-- Witness for C9 on the three-active-slot input: the final monitored
titres are 1 at slot 1 and 3 at slot 2. -/
theorem monitored_titres_monotone_witness :
    (multiple_infection_titre_dependent_boost exTriple [] [0, 0, 0]).2.getD
        1 0 ≤
      (multiple_infection_titre_dependent_boost exTriple [] [0, 0, 0]).2.getD
        2 0 :=
  monitored_titres_monotone exTriple [] [0, 0, 0] (by decide) (by decide)
    (by decide) (by decide) (by decide) (by decide)

/-- Claim C10: with guarded indexing, the strain-dependent model performs
the group-boost lookup before the active-slot test, so an out-of-range
group index at an inactive slot reaches the error branch (`none`), while
the unguarded model leaves the buffer unchanged there. -/
theorem strain_dependent_lookup_before_mask :
    multiple_infection_strain_dependent_checked exBadGroup exEmptyAdd [5] =
        none ∧
      multiple_infection_strain_dependent exBadGroup exEmptyAdd [5] = [5] :=
  ⟨rfl, rfl⟩

/-- Counterexample to claim C1 as stated: on three active slots with
unit cross-reactivity and no decay, the final `monitored_titres[2]` is 3
(the running total carries the Phase-A boost of slot 1), while the
claimed from-zero sum over prior slots is 2. -/
theorem phaseA_from_zero_counterexample :
    (multiple_infection_titre_dependent_boost exTriple [] [0, 0, 0]).2.getD
        2 0 ≠
      phaseASpecTotal exTriple
        (multiple_infection_titre_dependent_boost exTriple [] [0, 0, 0]).2
        2 := by with_unfolding_all decide

/-- Counterexample to claim C3 as stated: slot 0 is active but its inner
Phase-A scan is empty, so `monitored_titres[0]` keeps its entry value;
two runs differing only in that entry (5 versus 7) differ in the final
`monitored_titres[0]`. -/
theorem monitored_overwrite_counterexample :
    (multiple_infection_titre_dependent_boost exSingle [] [5]).2.getD 0 0 ≠
      (multiple_infection_titre_dependent_boost exSingle [] [7]).2.getD 0
        0 := by with_unfolding_all decide

theorem fastInfStep_fold_eq (f : FastArgs) (st : ℚ) (nt tmp : ℕ) :
    ∀ (L : List ℕ) (s : List ℚ × ℚ),
    L.foldl (fastInfStep f st nt tmp) s =
      (L.filter (fun x => f.infection_times.getD x 0 ≤ st)).foldl
        (fastInfBody f st nt tmp) s := by
  intro L
  induction L with
  | nil => intro s; rfl
  | cons x L ih =>
    intro s
    rw [List.foldl_cons, List.filter_cons]
    by_cases hx : f.infection_times.getD x 0 ≤ st
    · rw [if_pos (by simpa using hx), List.foldl_cons, ← ih, fastInfStep,
        if_pos hx]
    · rw [if_neg (by simpa using hx), ← ih, fastInfStep, if_neg hx]

/-- Claim C5: the fast individual simulator equals its spec-described
variant in which each draw scans only the infections passing the
temporal gate `infection_time[x] <= sample_time[j]`, with the seniority
counter starting at 1 and advancing once per passing infection: gated
infections contribute nothing and do not advance the counter. -/
theorem fast_base_temporal_gate (f : FastArgs) (pt : List ℚ) :
    titre_data_fast_individual_base f pt =
      titre_data_fast_individual_base_filtered f pt := by
  rw [titre_data_fast_individual_base,
    titre_data_fast_individual_base_filtered]
  have hdraw : fastDraw f = fastDrawFiltered f := by
    funext s j
    dsimp only [fastDraw, fastDrawFiltered]
    rw [fastInfStep_fold_eq]
  rw [hdraw]

theorem titreSlot_set_ne (a : Args) (P M : List ℚ) (A v : ℚ) {i j : ℕ}
    (hji : j < i) :
    titreSlot a ⟨P, M.set i v, A⟩ j =
      ⟨(titreSlot a ⟨P, M, A⟩ j).predicted_titres,
       (titreSlot a ⟨P, M, A⟩ j).monitored_titres.set i v,
       (titreSlot a ⟨P, M, A⟩ j).monitored_titre⟩ := by
  rw [titreSlot, titreSlot]
  by_cases hact : 0 < a.masked_infection_history.getD j 0
  · rw [if_pos hact, if_pos hact]
    dsimp only [slotA]
    have hmem : ∀ x ∈ (List.range j).reverse, x ≠ j := by
      intro x hx
      simp only [List.mem_reverse, List.mem_range] at hx
      omega
    have hagree : ∀ x ∈ (List.range j).reverse,
        (M.set i v).getD x 0 = M.getD x 0 := by
      intro x hx
      simp only [List.mem_reverse, List.mem_range] at hx
      exact getD_set_ne M v (by omega)
    have hacc :
        ((List.range j).reverse.foldl (titreInnerA a j) (M.set i v, A)).2 =
          ((List.range j).reverse.foldl (titreInnerA a j) (M, A)).2 :=
      foldA_acc_congr a j _ hmem _ _ A hagree
    have hmt :
        ((List.range j).reverse.foldl (titreInnerA a j) (M.set i v, A)).1 =
          (((List.range j).reverse.foldl (titreInnerA a j) (M, A)).1).set
            i v := by
      rcases Nat.eq_zero_or_pos j with hj | hj
      · subst hj; rfl
      · have hL : ((List.range j).reverse : List ℕ) ≠ [] := by
          simp only [ne_eq, List.reverse_eq_nil_iff, List.range_eq_nil]
          omega
        rw [foldA_collapse a j _ _ hL, foldA_collapse a j _ _ hL, hacc]
        exact List.set_comm v _ M (by omega)
    have hc : cPhaseB a j
        ((List.range j).reverse.foldl (titreInnerA a j) (M.set i v, A)).1 =
          cPhaseB a j
            ((List.range j).reverse.foldl (titreInnerA a j) (M, A)).1 := by
      apply cPhaseB_congr
      rw [hmt]
      exact getD_set_ne _ v (by omega)
    simp only [TState.mk.injEq]
    exact ⟨by rw [hc], hmt, hacc⟩
  · rw [if_neg hact, if_neg hact]

theorem titreSlot_set_self (a : Args) (P M : List ℚ) (A v : ℚ) {i : ℕ}
    (h1 : 1 ≤ i) (hact : 0 < a.masked_infection_history.getD i 0) :
    titreSlot a ⟨P, M.set i v, A⟩ i = titreSlot a ⟨P, M, A⟩ i := by
  rw [titreSlot, titreSlot, if_pos hact, if_pos hact]
  dsimp only [slotA]
  have hmem : ∀ x ∈ (List.range i).reverse, x ≠ i := by
    intro x hx
    simp only [List.mem_reverse, List.mem_range] at hx
    omega
  have hagree : ∀ x ∈ (List.range i).reverse,
      (M.set i v).getD x 0 = M.getD x 0 := by
    intro x hx
    simp only [List.mem_reverse, List.mem_range] at hx
    exact getD_set_ne M v (by omega)
  have hacc :
      ((List.range i).reverse.foldl (titreInnerA a i) (M.set i v, A)).2 =
        ((List.range i).reverse.foldl (titreInnerA a i) (M, A)).2 :=
    foldA_acc_congr a i _ hmem _ _ A hagree
  have hL : ((List.range i).reverse : List ℕ) ≠ [] := by
    simp only [ne_eq, List.reverse_eq_nil_iff, List.range_eq_nil]
    omega
  have hmt :
      ((List.range i).reverse.foldl (titreInnerA a i) (M.set i v, A)).1 =
        ((List.range i).reverse.foldl (titreInnerA a i) (M, A)).1 := by
    rw [foldA_collapse a i _ _ hL, foldA_collapse a i _ _ hL, hacc,
      List.set_set]
  simp only [TState.mk.injEq]
  exact ⟨by rw [hmt], hmt, hacc⟩

theorem runUpTo_set_state (a : Args) (pt mt : List ℚ) (v : ℚ) (i : ℕ) :
    ∀ j, j ≤ i → runUpTo a pt (mt.set i v) j =
      ⟨(runUpTo a pt mt j).predicted_titres,
       (runUpTo a pt mt j).monitored_titres.set i v,
       (runUpTo a pt mt j).monitored_titre⟩ := by
  intro j
  induction j with
  | zero => intro _; rfl
  | succ j ih =>
    intro hj
    rw [runUpTo_succ, runUpTo_succ, ih (by omega)]
    exact titreSlot_set_ne a _ _ _ v (by omega)

theorem runUpTo_congr_from (a : Args) {pt1 mt1 pt2 mt2 : List ℚ} {m : ℕ}
    (h : runUpTo a pt2 mt2 m = runUpTo a pt1 mt1 m) :
    ∀ n, m ≤ n → runUpTo a pt2 mt2 n = runUpTo a pt1 mt1 n := by
  intro n hmn
  induction n, hmn using Nat.le_induction with
  | base => exact h
  | succ n hmn ih => rw [runUpTo_succ, runUpTo_succ, ih]

/-- Claim C3 (amended): for every active slot `i` with at least one
prior slot (`1 ≤ i`), the final `monitored_titres[i]` is recomputed by
the titre-dependent model and does not depend on the entry value stored
at index `i` (slot 0, although active, keeps its entry value — see the
counterexample). -/
theorem monitored_overwrite_amended (a : Args) (pt mt : List ℚ) (v : ℚ)
    {i : ℕ} (h1 : 1 ≤ i) (hN : i < a.infection_times.length)
    (hact : 0 < a.masked_infection_history.getD i 0) :
    (multiple_infection_titre_dependent_boost a pt (mt.set i v)).2.getD i 0 =
      (multiple_infection_titre_dependent_boost a pt mt).2.getD i 0 := by
  have hstep : runUpTo a pt (mt.set i v) (i + 1) = runUpTo a pt mt (i + 1) := by
    rw [runUpTo_succ, runUpTo_succ, runUpTo_set_state a pt mt v i i le_rfl]
    exact titreSlot_set_self a _ _ _ v h1 hact
  have hall : runUpTo a pt (mt.set i v) a.infection_times.length =
      runUpTo a pt mt a.infection_times.length :=
    runUpTo_congr_from a hstep _ (by omega)
  show (runUpTo a pt (mt.set i v)
      a.infection_times.length).monitored_titres.getD i 0 = _
  rw [hall]
  rfl

/-- Witness for the amended C3: changing the entry value of
`monitored_titres[1]` from 0 to 9 does not change the final
`monitored_titres[1]`. -/
theorem monitored_overwrite_amended_witness :
    (multiple_infection_titre_dependent_boost exTriple []
        (([0, 0, 0] : List ℚ).set 1 9)).2.getD 1 0 =
      (multiple_infection_titre_dependent_boost exTriple []
        [0, 0, 0]).2.getD 1 0 :=
  monitored_overwrite_amended exTriple [] [0, 0, 0] 9 (by decide)
    (by decide) (by decide)

theorem termA_eq_spec (a : Args) (i : ℕ) (mt : List ℚ) (ii : ℕ) :
    termA a i mt ii = specTermA a mt i ii := by
  rw [termA, specTermA]
  by_cases hac : 0 < a.masked_infection_history.getD ii 0
  · rw [if_pos hac, if_pos hac]
    dsimp only
    congr 2
    · ring
    · ring_nf
  · rw [if_neg hac, if_neg hac]

/-- Claim C1 (amended): for an active slot `i` with a prior slot, the
final `monitored_titres[i]` equals the running total carried over from
the Phase-A scans of the earlier active slots (the running total is
initialised once, at function entry, and not reset per slot) plus the
claimed sum over active prior slots `ii < i` of
`long_boost + short_boost * max(0, 1 - wane*(t_i - t_ii))`, the
saturation factors being read from the final buffer. -/
theorem phaseA_total_amended (a : Args) (pt mt : List ℚ) {i : ℕ}
    (h1 : 1 ≤ i) (hN : i < a.infection_times.length)
    (hact : 0 < a.masked_infection_history.getD i 0)
    (hlen : i < mt.length) :
    (multiple_infection_titre_dependent_boost a pt mt).2.getD i 0 =
      (runUpTo a pt mt i).monitored_titre +
        phaseASpecTotal a
          (multiple_infection_titre_dependent_boost a pt mt).2 i := by
  show (runUpTo a pt mt a.infection_times.length).monitored_titres.getD i 0
    = _
  rw [runUpTo_mt_stable a pt mt
      (show i + 1 ≤ a.infection_times.length by omega) (by omega),
    runUpTo_active_mt_getD a pt mt h1 hact hlen, runUpTo_succ, titreSlot,
    if_pos hact]
  dsimp only [slotA]
  rw [foldA_acc_sum a i _ (fun x hx => by
    simp only [List.mem_reverse, List.mem_range] at hx
    omega)]
  congr 1
  rw [List.map_reverse, List.sum_reverse, phaseASpecTotal]
  refine congrArg List.sum (List.map_congr_left ?_)
  intro x hx
  rw [List.mem_range] at hx
  have e1 : (runUpTo a pt mt i).monitored_titres.getD x 0 =
      (runUpTo a pt mt (x + 1)).monitored_titres.getD x 0 :=
    runUpTo_mt_stable a pt mt (by omega) (by omega)
  have e2 : (multiple_infection_titre_dependent_boost a pt mt).2.getD x 0 =
      (runUpTo a pt mt (x + 1)).monitored_titres.getD x 0 :=
    runUpTo_mt_stable a pt mt (by omega) (by omega)
  rw [termA_congr a i x (e1.trans e2.symm), termA_eq_spec]

/-- Witness for the amended C1 on the three-active-slot input:
`monitored_titres[2] = 3 = 1 + 2`, where 1 is the running total carried
over from slot 1 and 2 is the claimed sum over slots 0 and 1. -/
theorem phaseA_total_amended_witness :
    (multiple_infection_titre_dependent_boost exTriple [] [0, 0, 0]).2.getD
        2 0 =
      (runUpTo exTriple [] [0, 0, 0] 2).monitored_titre +
        phaseASpecTotal exTriple
          (multiple_infection_titre_dependent_boost exTriple []
            [0, 0, 0]).2 2 :=
  phaseA_total_amended exTriple [] [0, 0, 0] (by decide) (by decide)
    (by decide) (by decide)

theorem getD_replicate_zero (n k : ℕ) :
    (List.replicate n (0:ℚ)).getD k 0 = 0 := by
  rw [List.getD_eq_getElem?_getD, List.getElem?_replicate]
  split <;> rfl

theorem titreSlot_active_mt (a : Args) (s : TState) (i : ℕ)
    (hact : 0 < a.masked_infection_history.getD i 0) :
    (titreSlot a s i).monitored_titres =
      (slotA a i (s.monitored_titres, s.monitored_titre)).1 := by
  rw [titreSlot, if_pos hact]

theorem titreSlot_active_acc (a : Args) (s : TState) (i : ℕ)
    (hact : 0 < a.masked_infection_history.getD i 0) :
    (titreSlot a s i).monitored_titre =
      (slotA a i (s.monitored_titres, s.monitored_titre)).2 := by
  rw [titreSlot, if_pos hact]

theorem titreSlot_active_pt (a : Args) (s : TState) (i : ℕ)
    (hact : 0 < a.masked_infection_history.getD i 0) :
    (titreSlot a s i).predicted_titres =
      (List.range a.measurement_map_indices.length).foldl
        (addAt (cPhaseB a i
          (slotA a i (s.monitored_titres, s.monitored_titre)).1))
        s.predicted_titres := by
  rw [titreSlot, if_pos hact]

theorem titreSlot_inactive (a : Args) (s : TState) (i : ℕ)
    (hact : ¬ 0 < a.masked_infection_history.getD i 0) :
    titreSlot a s i = s := by
  rw [titreSlot, if_neg hact]

theorem titreSlot_zero_mt (a : Args) (s : TState) :
    (titreSlot a s 0).monitored_titres = s.monitored_titres := by
  rw [titreSlot]
  split <;> rfl

theorem runUpTo_one_mt (a : Args) (pt mt : List ℚ) :
    (runUpTo a pt mt 1).monitored_titres = mt := by
  rw [runUpTo_succ]
  exact titreSlot_zero_mt a _

theorem slotA_collapse (a : Args) (i : ℕ) (p : List ℚ × ℚ) (h1 : 1 ≤ i) :
    (slotA a i p).1 = p.1.set i (slotA a i p).2 := by
  have hL : ((List.range i).reverse : List ℕ) ≠ [] := by
    simp only [ne_eq, List.reverse_eq_nil_iff, List.range_eq_nil]
    omega
  exact foldA_collapse a i _ p hL

theorem slotA_collapse_pair (a : Args) (i : ℕ) (mt : List ℚ) (acc : ℚ)
    (h1 : 1 ≤ i) :
    (slotA a i (mt, acc)).1 = mt.set i (slotA a i (mt, acc)).2 :=
  slotA_collapse a i (mt, acc) h1

theorem slotA_acc_congr (a : Args) (i : ℕ) (mt mt2 : List ℚ) (acc : ℚ)
    (hagree : ∀ x, x < i → mt.getD x 0 = mt2.getD x 0) :
    (slotA a i (mt, acc)).2 = (slotA a i (mt2, acc)).2 :=
  foldA_acc_congr a i _
    (fun x hx => by
      simp only [List.mem_reverse, List.mem_range] at hx
      omega)
    mt mt2 acc
    (fun x hx => by
      simp only [List.mem_reverse, List.mem_range] at hx
      exact hagree x hx)

theorem baseSlot_delta (a : Args) (r : ℕ → ℚ) :
    ∀ (q1 q2 : List ℚ) (i : ℕ), q2.length = q1.length →
    (∀ k, q2.getD k 0 = q1.getD k 0 - r k) →
    ∀ k, (baseSlot a q2 i).getD k 0 = (baseSlot a q1 i).getD k 0 - r k := by
  intro q1 q2 i hlen h k
  rw [baseSlot, baseSlot]
  by_cases hact : 0 < a.masked_infection_history.getD i 0
  · rw [if_pos hact, if_pos hact]
    exact (foldl_addAt_delta (cBase a i) r _ q1 q2 hlen h).2 k
  · rw [if_neg hact, if_neg hact]
    exact h k

theorem strainSlot_length (a : Args) (aa : AddArgs) (q : List ℚ) (i : ℕ) :
    (strainSlot a aa q i).length = q.length := by
  simp only [strainSlot]
  split
  · exact foldl_addAt_length _ _ _
  · rfl

theorem strainSlot_delta (a : Args) (aa : AddArgs) (r : ℕ → ℚ) :
    ∀ (q1 q2 : List ℚ) (i : ℕ), q2.length = q1.length →
    (∀ k, q2.getD k 0 = q1.getD k 0 - r k) →
    ∀ k, (strainSlot a aa q2 i).getD k 0 =
      (strainSlot a aa q1 i).getD k 0 - r k := by
  intro q1 q2 i hlen h k
  simp only [strainSlot]
  by_cases hact : 0 < a.masked_infection_history.getD i 0
  · rw [if_pos hact, if_pos hact]
    exact (foldl_addAt_delta _ r _ q1 q2 hlen h).2 k
  · rw [if_neg hact, if_neg hact]
    exact h k

theorem foldl_slot_delta (r : ℕ → ℚ) (g : List ℚ → ℕ → List ℚ)
    (hglen : ∀ q i, (g q i).length = q.length)
    (hgd : ∀ (q1 q2 : List ℚ) (i : ℕ), q2.length = q1.length →
      (∀ k, q2.getD k 0 = q1.getD k 0 - r k) →
      ∀ k, (g q2 i).getD k 0 = (g q1 i).getD k 0 - r k) :
    ∀ (L : List ℕ) (q1 q2 : List ℚ), q2.length = q1.length →
    (∀ k, q2.getD k 0 = q1.getD k 0 - r k) →
    ∀ k, (L.foldl g q2).getD k 0 = (L.foldl g q1).getD k 0 - r k := by
  intro L
  induction L with
  | nil => exact fun q1 q2 _ h => h
  | cons x L ih =>
    intro q1 q2 hlen h
    simp only [List.foldl_cons]
    exact ih (g q1 x) (g q2 x) (by rw [hglen, hglen, hlen])
      (hgd q1 q2 x hlen h)

theorem runUpTo_second_call (a : Args) (pt mt : List ℚ) :
    ∀ n, n ≤ a.infection_times.length →
    (runUpTo a (List.replicate pt.length 0)
        (runUpTo a pt mt a.infection_times.length).monitored_titres
        n).monitored_titres =
      (runUpTo a pt mt a.infection_times.length).monitored_titres ∧
    (runUpTo a (List.replicate pt.length 0)
        (runUpTo a pt mt a.infection_times.length).monitored_titres
        n).monitored_titre = (runUpTo a pt mt n).monitored_titre ∧
    (runUpTo a (List.replicate pt.length 0)
        (runUpTo a pt mt a.infection_times.length).monitored_titres
        n).predicted_titres.length = pt.length ∧
    ∀ k, (runUpTo a (List.replicate pt.length 0)
        (runUpTo a pt mt a.infection_times.length).monitored_titres
        n).predicted_titres.getD k 0 =
      (runUpTo a pt mt n).predicted_titres.getD k 0 - pt.getD k 0 := by
  intro n
  induction n with
  | zero =>
    intro _
    refine ⟨rfl, rfl, by rw [runUpTo_pt_length, List.length_replicate], ?_⟩
    intro k
    show (List.replicate pt.length (0:ℚ)).getD k 0 =
      pt.getD k 0 - pt.getD k 0
    rw [getD_replicate_zero]
    ring
  | succ n ih =>
    intro hn1
    obtain ⟨ihmt, ihacc, ihlen, ihpt⟩ := ih (by omega)
    by_cases hact : 0 < a.masked_infection_history.getD n 0
    · have hagree : ∀ x, x < n →
          (runUpTo a pt mt a.infection_times.length).monitored_titres.getD
              x 0 =
            (runUpTo a pt mt n).monitored_titres.getD x 0 := by
        intro x hx
        rw [runUpTo_mt_stable a pt mt
            (show x + 1 ≤ a.infection_times.length by omega) (by omega),
          runUpTo_mt_stable a pt mt (show x + 1 ≤ n by omega) (by omega)]
      have hacc2 : (slotA a n
          ((runUpTo a pt mt a.infection_times.length).monitored_titres,
           (runUpTo a pt mt n).monitored_titre)).2 =
          (slotA a n ((runUpTo a pt mt n).monitored_titres,
           (runUpTo a pt mt n).monitored_titre)).2 :=
        slotA_acc_congr a n _ _ _ hagree
      have hfold1acc : (runUpTo a pt mt (n + 1)).monitored_titre =
          (slotA a n ((runUpTo a pt mt n).monitored_titres,
            (runUpTo a pt mt n).monitored_titre)).2 := by
        rw [runUpTo_succ]
        exact titreSlot_active_acc a _ n hact
      have hmtflen :
          (runUpTo a pt mt a.infection_times.length).monitored_titres.length
            = mt.length := runUpTo_mt_length a pt mt _
      have hval : 1 ≤ n → n < mt.length →
          (runUpTo a pt mt a.infection_times.length).monitored_titres.getD
              n 0 =
            (slotA a n
              ((runUpTo a pt mt a.infection_times.length).monitored_titres,
               (runUpTo a pt mt n).monitored_titre)).2 := by
        intro h1 hlt
        rw [runUpTo_mt_stable a pt mt
            (show n + 1 ≤ a.infection_times.length by omega) (by omega),
          runUpTo_active_mt_getD a pt mt h1 hact hlt, hfold1acc, hacc2]
      have hmt2 : (slotA a n
          ((runUpTo a pt mt a.infection_times.length).monitored_titres,
           (runUpTo a pt mt n).monitored_titre)).1 =
          (runUpTo a pt mt a.infection_times.length).monitored_titres := by
        rcases Nat.eq_zero_or_pos n with h0 | h1
        · subst h0; rfl
        · rw [slotA_collapse_pair a n _ _ h1]
          rcases lt_or_ge n mt.length with hlt | hge
          · rw [← hval h1 hlt, set_getD_self]
          · exact List.set_eq_of_length_le (by rw [hmtflen]; omega)
      have hc : cPhaseB a n
          (slotA a n
            ((runUpTo a pt mt a.infection_times.length).monitored_titres,
             (runUpTo a pt mt n).monitored_titre)).1 =
          cPhaseB a n (slotA a n ((runUpTo a pt mt n).monitored_titres,
             (runUpTo a pt mt n).monitored_titre)).1 := by
        apply cPhaseB_congr
        rw [hmt2]
        rcases Nat.eq_zero_or_pos n with h0 | h1
        · subst h0
          show (runUpTo a pt mt a.infection_times.length).monitored_titres.getD
              0 0 = (runUpTo a pt mt 0).monitored_titres.getD 0 0
          rw [runUpTo_mt_stable a pt mt
              (show 0 + 1 ≤ a.infection_times.length by omega) (by omega),
            runUpTo_one_mt]
          rfl
        · rw [slotA_collapse_pair a n _ _ h1]
          rcases lt_or_ge n mt.length with hlt | hge
          · rw [getD_set_self _ _
              (by rw [runUpTo_mt_length]; exact hlt), hval h1 hlt, hacc2]
          · have hge2 : (runUpTo a pt mt
                a.infection_times.length).monitored_titres.length ≤ n := by
              rw [runUpTo_mt_length]
              omega
            have hge3 :
                (runUpTo a pt mt n).monitored_titres.length ≤ n := by
              rw [runUpTo_mt_length]
              omega
            rw [List.set_eq_of_length_le hge3,
              List.getD_eq_default _ _ hge2, List.getD_eq_default _ _ hge3]
      refine ⟨?_, ?_, ?_, ?_⟩
      · rw [runUpTo_succ, titreSlot_active_mt a _ n hact, ihmt, ihacc]
        exact hmt2
      · rw [runUpTo_succ, runUpTo_succ, titreSlot_active_acc a _ n hact,
          titreSlot_active_acc a _ n hact, ihmt, ihacc]
        exact hacc2
      · rw [runUpTo_succ, titreSlot_pt_length]
        exact ihlen
      · intro k
        rw [runUpTo_succ, runUpTo_succ, titreSlot_active_pt a _ n hact,
          titreSlot_active_pt a _ n hact, ihmt, ihacc, hc]
        exact (foldl_addAt_delta _ (fun j => pt.getD j 0) _ _ _
          (by rw [ihlen, runUpTo_pt_length]) ihpt).2 k
    · rw [runUpTo_succ, runUpTo_succ, titreSlot_inactive a _ n hact,
        titreSlot_inactive a _ n hact]
      exact ⟨ihmt, ihacc, ihlen, ihpt⟩

/-- Claim C6: calling each model a second time with a zeroed
`predicted_titres` of the same length (and, for the titre-dependent
model, the `monitored_titres` buffer as the first call left it) adds
exactly the amounts the first call added, and the titre-dependent model
reproduces the same `monitored_titres`: no hidden state is carried
between calls. -/
theorem second_call_identical (a : Args) (aa : AddArgs) (pt mt : List ℚ) :
    (∀ k, (multiple_infection_base_boosting a
        (List.replicate pt.length 0)).getD k 0 =
      (multiple_infection_base_boosting a pt).getD k 0 - pt.getD k 0) ∧
    (∀ k, (multiple_infection_strain_dependent a aa
        (List.replicate pt.length 0)).getD k 0 =
      (multiple_infection_strain_dependent a aa pt).getD k 0 -
        pt.getD k 0) ∧
    (multiple_infection_titre_dependent_boost a
        (List.replicate pt.length 0)
        (multiple_infection_titre_dependent_boost a pt mt).2).2 =
      (multiple_infection_titre_dependent_boost a pt mt).2 ∧
    ∀ k, (multiple_infection_titre_dependent_boost a
        (List.replicate pt.length 0)
        (multiple_infection_titre_dependent_boost a pt mt).2).1.getD k 0 =
      (multiple_infection_titre_dependent_boost a pt mt).1.getD k 0 -
        pt.getD k 0 := by
  have hz : (List.replicate pt.length (0:ℚ)).length = pt.length := by simp
  have hd : ∀ k, (List.replicate pt.length (0:ℚ)).getD k 0 =
      pt.getD k 0 - pt.getD k 0 := by
    intro k
    rw [getD_replicate_zero]
    ring
  refine ⟨?_, ?_, ?_, ?_⟩
  · exact foldl_slot_delta _ (baseSlot a) (baseSlot_length a)
      (baseSlot_delta a _) _ pt _ hz hd
  · exact foldl_slot_delta _ (strainSlot a aa) (strainSlot_length a aa)
      (strainSlot_delta a aa _) _ pt _ hz hd
  · exact (runUpTo_second_call a pt mt a.infection_times.length le_rfl).1
  · exact (runUpTo_second_call a pt mt a.infection_times.length
      le_rfl).2.2.2

end Serosolver

